import Mathlib

/-!
Verification of the terminal command dispatch core of the VS-Code-themed
portfolio site: the tokenizer, the command registry, the typo-suggestion
engine (Levenshtein distance), the two dispatcher implementations
(`CommandExecutor` in `services/command-executor.ts`, `CommandHandler` in
`services/command-handler.ts`), and the session-storage history
persistence (`utils/terminal-persistence.ts`, `utils/guide-persistence.ts`,
and the history capping in `contexts/TerminalContext.tsx`).

The TypeScript source is shallowly embedded: JS `Map`s become
insertion-ordered association lists, JS strings become Lean `String`s /
`List Char` (UTF-16 units modelled as scalar values; all data involved is
ASCII), thrown exceptions and rejected promises become `Except String`,
and `JSON.stringify`/`JSON.parse` round-tripping through session storage
is modelled by storing the structured `JVal` value itself.  Core Lean
`String` operations such as `String.trim` are defined by well-founded
recursion and do not reduce in the kernel, so the JS string primitives
used by the source (`trim`, `toLowerCase`, `startsWith`, `includes`,
`join`, whitespace split) are given their own executable `List Char`
translations below.
-/

/-- The four result severities (`TerminalEntryType` in `types/terminal.ts`). -/
inductive TerminalEntryType : Type where
  | success : TerminalEntryType
  | error : TerminalEntryType
  | info : TerminalEntryType
  | warning : TerminalEntryType
deriving DecidableEq, Repr

/-- `CommandResult` from `types/terminal.ts` (the optional `data` payload is
omitted: no claim concerns it). -/
structure CommandResult : Type where
  success : Bool
  output : String
  type : TerminalEntryType
deriving DecidableEq, Repr

/-- The slice of `CommandContext` (`types/terminal.ts`) the verified claims
touch: the shared command-history reference.  The remaining fields
(navigation callback, theme setter, portfolio data, executor back-reference,
guide trigger) are opaque to every claim and are omitted.  None of the
registered command bodies mutates `commandHistory` (the `history` command
only reads it), so handlers are modelled as pure functions. -/
structure CommandContext : Type where
  commandHistory : List String

/-- `Command` from `types/terminal.ts`.  `execute` returns
`Except String CommandResult`: `.error msg` models a rejected promise / a
thrown `Error` whose `message` is `msg`. -/
structure Command : Type where
  name : String
  description : String := ""
  usage : String := ""
  aliases : List String := []
  execute : List String → CommandContext → Except String CommandResult
  validate : Option (List String → Bool) := none

/-- JS `String.prototype.toLowerCase`, on the ASCII data in play. -/
def jsToLower (s : String) : String :=
  ⟨s.data.map Char.toLower⟩

/-- JS `String.prototype.trim`: whitespace stripped from both ends. -/
def jsTrim (s : String) : String :=
  ⟨((s.data.dropWhile Char.isWhitespace).reverse.dropWhile Char.isWhitespace).reverse⟩

/-- JS `String.prototype.startsWith`. -/
def jsStartsWith (s pre : String) : Bool :=
  pre.data.isPrefixOf s.data

/-- Whether `needle` occurs as a contiguous substring of `hay`
(JS `String.prototype.includes`). -/
def listContainsSub (hay needle : List Char) : Bool :=
  match hay with
  | [] => needle.isEmpty
  | _ :: t => needle.isPrefixOf hay || listContainsSub t needle

/-- JS `String.prototype.includes`. -/
def jsIncludes (s needle : String) : Bool :=
  listContainsSub s.data needle.data

/-- JS `Array.prototype.join(sep)`. -/
def jsJoin (sep : String) : List String → String
  | [] => ""
  | x :: rest => rest.foldl (fun acc s => acc ++ sep ++ s) x

/-- Lookup in a JS `Map` modelled as an insertion-ordered association list
(`Map.prototype.get`, with `Map.prototype.has` being `isSome` of this). -/
def mapGet {α : Type} : List (String × α) → String → Option α
  | [], _ => none
  | p :: rest, k => if p.1 = k then some p.2 else mapGet rest k

/-- `Map.prototype.set`: an existing key is updated in place (keeping its
original insertion position), a new key is appended at the end. -/
def mapSet {α : Type} : List (String × α) → String → α → List (String × α)
  | [], k, v => [(k, v)]
  | p :: rest, k, v => if p.1 = k then (k, v) :: rest else p :: mapSet rest k v

/-- The state of a `CommandExecutor` instance (`services/command-executor.ts`):
the `commands` map, the `aliases` map and the shared context. -/
structure ExecutorState : Type where
  commands : List (String × Command)
  aliases : List (String × String)
  context : CommandContext

/-- `CommandExecutor.registerCommand`: inserts the command under its primary
name as given (no case folding) and each alias into the alias map. -/
def registerCommand (st : ExecutorState) (cmd : Command) : ExecutorState :=
  { st with
    commands := mapSet st.commands cmd.name cmd,
    aliases := cmd.aliases.foldl (fun m al => mapSet m al cmd.name) st.aliases }

/-- `CommandExecutor.registerCommands`. -/
def registerCommands (st : ExecutorState) (cmds : List Command) : ExecutorState :=
  cmds.foldl registerCommand st

/-- `CommandExecutor.getCommand`: the primary map is consulted first, then the
alias indirection.  The lookups are exact (case-sensitive).  An alias whose
stored target is the empty string falls into JS falsiness
(`if (commandName)`) and resolves to nothing. -/
def executorGetCommand (st : ExecutorState) (nameOrAlias : String) : Option Command :=
  match mapGet st.commands nameOrAlias with
  | some c => some c
  | none =>
    match mapGet st.aliases nameOrAlias with
    | some commandName =>
      if commandName = "" then none else mapGet st.commands commandName
    | none => none

/-- The character loop of `CommandExecutor.parseCommand`: `parts` and
`current` accumulate tokens, `inQuotes`/`quoteChar` track an open quote span.
The JS `quoteChar` variable holds `''` outside a span; that sentinel is
modelled as `none`.  A completed `current` is pushed only when nonempty
(`if (current)`). -/
def parseLoop : List Char → List String → String → Bool → Option Char → List String
  | [], parts, current, _, _ =>
    if current = "" then parts else parts ++ [current]
  | c :: rest, parts, current, inQuotes, quoteChar =>
    if (c = '"' ∨ c = '\'') ∧ inQuotes = false then
      parseLoop rest parts current true (some c)
    else if some c = quoteChar ∧ inQuotes = true then
      parseLoop rest parts current false none
    else if c = ' ' ∧ inQuotes = false then
      if current = "" then parseLoop rest parts current inQuotes quoteChar
      else parseLoop rest (parts ++ [current]) "" inQuotes quoteChar
    else
      parseLoop rest parts (current.push c) inQuotes quoteChar

/-- `CommandExecutor.parseCommand`: trim, run the quote-aware splitter, then
destructure `[command, ...args]` with `command || ''`. -/
def parseCommand (input : String) : String × List String :=
  let parts := parseLoop (jsTrim input).data [] "" false none
  (parts.headD "", parts.tail)

/-- One cell-by-cell pass of the Wagner-Fischer loop in
`CommandExecutor.levenshteinDistance`, producing the cells `matrix[i][1..]`
of a row from the previous row.  `bc` is `b.charAt(i-1)`; walking `ach`
(the characters of `a`) at position `j`, `diag` is `matrix[i-1][j-1]`, `up`
is `matrix[i-1][j]` and `left` is the freshly written `matrix[i][j-1]`. -/
def levRowGo (bc : Char) : List Char → List Nat → Nat → Nat → List Nat
  | [], _, _, _ => []
  | _ :: _, [], _, _ => []
  | c :: cs, up :: prevRest, diag, left =>
    let cell := if bc = c then diag else min (min (diag + 1) (left + 1)) (up + 1)
    cell :: levRowGo bc cs prevRest up cell

/-- The outer row loop of `CommandExecutor.levenshteinDistance`: row `0` is
`[0, 1, …, a.length]`; row `i` starts with `matrix[i][0] = i` followed by the
cells computed from row `i-1`. -/
def levRows (ach : List Char) : List Char → List Nat → Nat → List Nat
  | [], row, _ => row
  | bc :: bs, row, i =>
    let nextRow := (i + 1) :: levRowGo bc ach row.tail (row.headD 0) (i + 1)
    levRows ach bs nextRow (i + 1)

/-- `CommandExecutor.levenshteinDistance a b`: the classic unit-cost edit
distance DP; the returned value is `matrix[b.length][a.length]`, the last
cell of the final row. -/
def levenshteinDistance (a b : String) : Nat :=
  let row0 := (List.range (a.data.length + 1))
  (levRows a.data b.data row0 0).getD a.data.length 0

/-- All registered names and aliases, in map insertion order
(`[...this.commands.keys(), ...this.aliases.keys()]`). -/
def allCommandNames (st : ExecutorState) : List String :=
  st.commands.map Prod.fst ++ st.aliases.map Prod.fst

/-- The distance the suggestion engine scores a candidate with:
`levenshteinDistance(input.toLowerCase(), name.toLowerCase())`. -/
def suggestionDistance (input s : String) : Nat :=
  levenshteinDistance (jsToLower input) (jsToLower s)

/-- The scored candidate list of `CommandExecutor.findSimilarCommands`
before filtering: each name paired with its distance.  The entries also
carry their position in `allCommandNames`, which models the tie order of
the JS engine's stable `Array.prototype.sort`. -/
def scoredNames (st : ExecutorState) (input : String) : List (Nat × Nat × String) :=
  (allCommandNames st).enum.map (fun p => (suggestionDistance input p.2, p.1, p.2))

/-- The comparator `(a, b) => a.distance - b.distance` of a stable sort:
ascending distance, original position as the tiebreak. -/
def suggestionLE (x y : Nat × Nat × String) : Prop :=
  x.1 < y.1 ∨ (x.1 = y.1 ∧ x.2.1 ≤ y.2.1)

instance : DecidableRel suggestionLE := fun x y => by
  unfold suggestionLE; infer_instance

/-- `CommandExecutor.findSimilarCommands input threshold`: score every
registered name and alias, keep those within the threshold, sort by
ascending distance (stably), project the names and return the first 3. -/
def findSimilarCommands (st : ExecutorState) (input : String) (threshold : Nat) : List String :=
  let kept := (scoredNames st input).filter (fun t => t.1 ≤ threshold)
  (((List.insertionSort suggestionLE kept).map (fun t => t.2.2)).take 3)

/-- `CommandExecutor.validateCommand`: run the validator when present,
otherwise accept. -/
def validateCommand (cmd : Command) (args : List String) : Bool :=
  match cmd.validate with
  | some v => v args
  | none => true

/-- `CommandExecutor.executeCommand input`.  Returns the `CommandResult`,
the (unchanged) executor state — the method never writes `this` — and, as
an observation added by the embedding, the list of handler invocations
performed (source command names), used to state which handlers ran.  The
source wraps the whole body in `try/catch`:  only `command.execute` can
fault, and `.error e` there models that rejection. -/
def executeCommand (st : ExecutorState) (input : String) :
    CommandResult × ExecutorState × List String :=
  let parsed := parseCommand input
  let commandName := parsed.1
  let args := parsed.2
  if commandName = "" then
    ({ success := false, output := "No command entered.", type := .error }, st, [])
  else
    match executorGetCommand st commandName with
    | none =>
      let suggestions := findSimilarCommands st commandName 2
      let output :=
        "Command '" ++ commandName ++ "' not found." ++
          (if suggestions.length > 0 then
            "\n\nDid you mean:\n" ++ jsJoin "\n" (suggestions.map (fun s => "  • " ++ s))
          else "") ++
          "\n\nType 'help' to see all available commands."
      ({ success := false, output := output, type := .error }, st, [])
    | some cmd =>
      if validateCommand cmd args = false then
        ({ success := false,
           output := "Invalid arguments for '" ++ commandName ++ "'.\n\nUsage: " ++ cmd.usage,
           type := .error }, st, [])
      else
        match cmd.execute args st.context with
        | .ok r => (r, st, [cmd.name])
        | .error e =>
          ({ success := false,
             output := "An error occurred while executing the command: " ++ e,
             type := .error }, st, [cmd.name])

/-- The state of the `CommandHandler` service (`services/command-handler.ts`):
its two lowercased-key maps plus the `commandHistory` array of the context
it constructs (`commandHistory: []` merged with the caller's partial
context; the array is always present, and a JS empty array is truthy, so
the `if (this.context.commandHistory)` guard before the history push always
passes). -/
structure HandlerState : Type where
  commands : List (String × Command)
  aliases : List (String × String)
  history : List String

/-- `CommandHandler.initializeCommands`: every command registered under its
lowercased name, every alias lowercased and mapped to the lowercased name. -/
def initializeCommands (cmds : List Command) : HandlerState :=
  cmds.foldl
    (fun st c =>
      { st with
        commands := mapSet st.commands (jsToLower c.name) c,
        aliases := c.aliases.foldl
          (fun m al => mapSet m (jsToLower al) (jsToLower c.name)) st.aliases })
    { commands := [], aliases := [], history := [] }

/-- The whitespace splitter of `CommandHandler.parseCommand`
(`trimmed.split(/\s+/)` on an already-trimmed string): split on runs of
whitespace, producing no empty parts. -/
def splitOnWs : List Char → List String → String → List String
  | [], parts, current =>
    if current = "" then parts else parts ++ [current]
  | c :: rest, parts, current =>
    if c.isWhitespace then
      if current = "" then splitOnWs rest parts current
      else splitOnWs rest (parts ++ [current]) ""
    else
      splitOnWs rest parts (current.push c)

/-- `CommandHandler.parseCommand`: trim, early-return on empty, split on
whitespace runs, lowercase the command token. -/
def handlerParseCommand (input : String) : String × List String :=
  let trimmed := jsTrim input
  if trimmed = "" then ("", [])
  else
    let parts := splitOnWs trimmed.data [] ""
    (jsToLower (parts.headD ""), parts.tail)

/-- `CommandHandler.resolveCommandName`: lowercase, then
`this.aliases.get(lowerName) || lowerName` (an empty-string alias target is
falsy in JS and falls back to the lowercased input). -/
def resolveCommandName (st : HandlerState) (name : String) : String :=
  let lowerName := jsToLower name
  match mapGet st.aliases lowerName with
  | some commandName => if commandName = "" then lowerName else commandName
  | none => lowerName

/-- `CommandHandler.getCommand`. -/
def handlerGetCommand (st : HandlerState) (name : String) : Option Command :=
  mapGet st.commands (resolveCommandName st name)

/-- `CommandHandler.getAvailableCommands`: the command-map keys, sorted
(JS default lexicographic `Array.prototype.sort`). -/
def handlerGetAvailableCommands (st : HandlerState) : List String :=
  List.insertionSort (fun a b : String => a ≤ b) (st.commands.map Prod.fst)

/-- `CommandHandler.getCommandSuggestions`: prefix matches on names, then on
aliases (pushing the alias, deduplicated against the alias's target), then
substring matches on names, finally sorted. -/
def handlerGetCommandSuggestions (st : HandlerState) (frag : String) : List String :=
  if frag = "" then handlerGetAvailableCommands st
  else
    let lowerFrag := jsToLower frag
    let s1 := (st.commands.map Prod.fst).filter (fun n => jsStartsWith n lowerFrag)
    let s2 := st.aliases.foldl
      (fun acc p =>
        if jsStartsWith p.1 lowerFrag ∧ acc.contains p.2 = false then acc ++ [p.1] else acc)
      s1
    let s3 := st.commands.foldl
      (fun acc p =>
        if jsIncludes p.1 lowerFrag ∧ acc.contains p.1 = false then acc ++ [p.1] else acc)
      s2
    List.insertionSort (fun a b : String => a ≤ b) s3

/-- The guard `command.validate && !command.validate(args)` of
`CommandHandler.executeCommand`. -/
def validateFails (cmd : Command) (args : List String) : Bool :=
  match cmd.validate with
  | some v => !(v args)
  | none => false

/-- `CommandHandler.executeCommand input`: parse, resolve, validate, run the
handler, and — only when the handler resolved successfully — push the raw
input onto `context.commandHistory`.  A handler fault (`.error`) is caught
by the surrounding `try/catch`, which skips the push and wraps the fault
message.  Returns the result together with the updated handler state. -/
def handlerExecuteCommand (st : HandlerState) (input : String) :
    CommandResult × HandlerState :=
  let parsed := handlerParseCommand input
  let commandName := parsed.1
  let args := parsed.2
  if commandName = "" then
    ({ success := false,
       output := "Please enter a command. Type \"help\" for available commands.",
       type := .info }, st)
  else
    match handlerGetCommand st commandName with
    | none =>
      let suggestions := handlerGetCommandSuggestions st commandName
      let output :=
        "Command '" ++ commandName ++ "' not found." ++
          (if suggestions.length > 0 then
            "\n\nDid you mean:\n" ++
              jsJoin "\n" ((suggestions.take 3).map (fun s => "  • " ++ s))
          else "") ++
          "\n\nType \"help\" for all available commands."
      ({ success := false, output := output, type := .error }, st)
    | some cmd =>
      if validateFails cmd args then
        ({ success := false,
           output := "Invalid arguments for '" ++ cmd.name ++ "'.\n\nUsage: " ++ cmd.usage,
           type := .error }, st)
      else
        match cmd.execute args { commandHistory := st.history } with
        | .ok r => (r, { st with history := st.history ++ [input] })
        | .error e =>
          ({ success := false,
             output := "An error occurred while executing the command.\n\nError: " ++ e,
             type := .error }, st)

/-- JSON values, as stored in session storage.  `JSON.stringify` followed by
`JSON.parse` is the identity on this data, so the storage slots hold `JVal`s
directly. -/
inductive JVal : Type where
  | str : String → JVal
  | num : Int → JVal
  | jbool : Bool → JVal
  | arr : List JVal → JVal
  | obj : List (String × JVal) → JVal

/-- JS `arr.slice(-n)` for a nonnegative `n`: the last `n` elements — except
that `-0 === 0`, so `slice(-0)` is `slice(0)`, the whole array. -/
def jsSliceLast {α : Type} (l : List α) (n : Nat) : List α :=
  if n = 0 then l else l.drop (l.length - n)

/-- `saveCommandHistory commands maxSize` (`utils/terminal-persistence.ts`):
the JSON value written under the `terminal_command_history` key — the last
`maxSize` commands as a bare array of strings (no version marker, no
wrapper object). -/
def saveCommandHistory (commands : List String) (maxSize : Nat) : JVal :=
  JVal.arr ((jsSliceLast commands maxSize).map JVal.str)

/-- `loadCommandHistory maxSize` on the stored slot (`none` = key absent;
`JSON.stringify` output is never the empty string, so JS falsiness of the
stored string coincides with absence).  The parsed value is used with no
shape or version check beyond `.slice` itself: a stored number, boolean or
object makes `.slice` throw, which the `catch` turns into `[]` — the
catch-all branch here.  (A stored JSON *string* would instead be sliced as
a string in JS; no writer produces one for this key and no theorem below
evaluates the catch-all branch, so that case is folded into it.) -/
def loadCommandHistory (maxSize : Nat) (stored : Option JVal) : List JVal :=
  match stored with
  | none => []
  | some (JVal.arr elems) => jsSliceLast elems maxSize
  | some _ => []

/-- A serialized `TerminalEntry` as `saveTerminalHistory` writes it
(`timestamp` already converted by `toISOString`, modelled as the string it
produces). -/
structure TerminalEntry : Type where
  id : String
  command : String
  output : String
  timestamp : String
  type : TerminalEntryType
  isLoading : Bool := false

/-- The display string of a `TerminalEntryType` in serialized form. -/
def entryTypeStr : TerminalEntryType → String
  | .success => "success"
  | .error => "error"
  | .info => "info"
  | .warning => "warning"

/-- One serialized history entry: a plain object of the entry's fields —
again with no version marker. -/
def entryToJVal (e : TerminalEntry) : JVal :=
  JVal.obj
    [("id", JVal.str e.id), ("command", JVal.str e.command),
     ("output", JVal.str e.output), ("timestamp", JVal.str e.timestamp),
     ("type", JVal.str (entryTypeStr e.type)), ("isLoading", JVal.jbool e.isLoading)]

/-- `saveTerminalHistory history maxSize`: the JSON value written under the
`terminal_history` key — the last `maxSize` entries, serialized. -/
def saveTerminalHistory (history : List TerminalEntry) (maxSize : Nat) : JVal :=
  JVal.arr ((jsSliceLast history maxSize).map entryToJVal)

/-- Whether a stored JSON value is tagged with a schema/version marker: a
top-level object with a `version` field. -/
def hasVersionField : JVal → Bool
  | JVal.obj fields => fields.any (fun p => p.1 = "version")
  | _ => false

/-- `GUIDE_VERSION` from `utils/guide-persistence.ts`. -/
def guideVersion : String := "1.0.0"

/-- `saveGuideDismissed` (`utils/guide-persistence.ts`): the value written
under `portfolio_guide_state`, tagged with the version marker. -/
def saveGuideDismissed (dismissed : Bool) (dismissedAt : String) : JVal :=
  JVal.obj
    [("dismissed", JVal.jbool dismissed), ("dismissedAt", JVal.str dismissedAt),
     ("version", JVal.str guideVersion)]

/-- `loadGuideDismissed` on the stored slot: absent, non-boolean `dismissed`,
or a `version` different from `GUIDE_VERSION` all reset to the fresh state
`false` (the source also clears the storage key in those branches; only the
returned state matters to the claims). -/
def loadGuideDismissed (stored : Option JVal) : Bool :=
  match stored with
  | some (JVal.obj fields) =>
    match mapGet fields "dismissed" with
    | some (JVal.jbool b) =>
      match mapGet fields "version" with
      | some (JVal.str v) => if v = guideVersion then b else false
      | _ => false
    | _ => false
  | _ => false

/-- The history append of `handleCommandSubmit`
(`contexts/TerminalContext.tsx`): push the command, and slice to the last
`maxSize` when over the cap. -/
def appendCommand (prev : List String) (cmd : String) (maxSize : Nat) : List String :=
  let newHistory := prev ++ [cmd]
  if newHistory.length > maxSize then jsSliceLast newHistory maxSize else newHistory

/-- A test fixture mirroring the registered `goto` command
(`commands/action-commands.ts`): primary name `goto`, alias `nav`. -/
def gotoCmd : Command :=
  { name := "goto", description := "Navigate to a section", usage := "goto [section]",
    aliases := ["nav"],
    execute := fun _ _ => .ok { success := true, output := "", type := .success } }

/-- A minimal fixture command whose handler succeeds. -/
def pingCmd : Command :=
  { name := "ping",
    execute := fun _ _ => .ok { success := true, output := "pong", type := .success } }

/-- A fixture command whose handler throws (its promise rejects). -/
def boomCmd : Command :=
  { name := "boom", execute := fun _ _ => .error "Something went wrong" }

/-- A freshly constructed executor with nothing registered. -/
def emptyExec : ExecutorState :=
  { commands := [], aliases := [], context := { commandHistory := [] } }

/-- An executor with the `goto` fixture registered. -/
def gotoExec : ExecutorState := registerCommands emptyExec [gotoCmd]

/-- An executor with the throwing fixture registered. -/
def boomExec : ExecutorState := registerCommands emptyExec [boomCmd]

/-- A handler-service state with the `goto` and `ping` fixtures registered. -/
def sampleHandler : HandlerState := initializeCommands [gotoCmd, pingCmd]

/-- A handler-service state with only the `ping` fixture registered. -/
def pingHandler : HandlerState := initializeCommands [pingCmd]

/-- A handler-service state with only the throwing fixture registered. -/
def boomHandler : HandlerState := initializeCommands [boomCmd]

/-- C4: the tokenizer's quoting behaviour on the specified inputs: double
quotes group, single quotes group, empty input parses to the empty command,
an unterminated quote absorbs the rest of the line without an error, and a
quote character only closes a span it itself opened (the apostrophe inside
a double-quoted span stays literal). -/
theorem tokenizer_quoting_examples :
    parseCommand "echo \"a b\" c" = ("echo", ["a b", "c"]) ∧
    parseCommand "cmd 'x y'" = ("cmd", ["x y"]) ∧
    parseCommand "" = ("", []) ∧
    parseCommand "cmd \"unterminated" = ("cmd", ["unterminated"]) ∧
    parseCommand "cmd \"a'b\" c" = ("cmd", ["a'b", "c"]) := by
  decide

/-- C10 counterexample: on the input consisting of just an empty quoted
span, the parsed command is empty although the trimmed input is not — so
"the command is empty only when the whole trimmed input is empty" fails. -/
theorem empty_quotes_command_cex :
    parseCommand "\"\"" = ("", []) ∧ jsTrim "\"\"" ≠ "" := by
  decide

/-- The token accumulator only ever pushes a nonempty `current`, so every
token `parseLoop` produces is nonempty (given the tokens accumulated so far
are). -/
theorem parseLoop_mem_ne_empty :
    ∀ (cs : List Char) (parts : List String) (current : String) (inQ : Bool)
      (qc : Option Char),
      (∀ p ∈ parts, p ≠ "") →
      ∀ p ∈ parseLoop cs parts current inQ qc, p ≠ "" := by
  intro cs
  induction cs with
  | nil =>
    intro parts current inQ qc hparts p hp
    simp only [parseLoop] at hp
    split at hp
    · exact hparts p hp
    · rename_i hcur
      rcases List.mem_append.1 hp with h1 | h1
      · exact hparts p h1
      · simp only [List.mem_singleton] at h1
        subst h1
        exact hcur
  | cons c rest ih =>
    intro parts current inQ qc hparts p hp
    simp only [parseLoop] at hp
    split at hp
    · exact ih _ _ _ _ hparts p hp
    · split at hp
      · exact ih _ _ _ _ hparts p hp
      · split at hp
        · split at hp
          · exact ih _ _ _ _ hparts p hp
          · rename_i hcur
            refine ih _ _ _ _ ?_ p hp
            intro q hq
            rcases List.mem_append.1 hq with h1 | h1
            · exact hparts q h1
            · simp only [List.mem_singleton] at h1
              subst h1
              exact hcur
        · exact ih _ _ _ _ hparts p hp

/-- C10 (as amended): an empty quoted span produces no token; no returned
argument is ever the empty string; and an input that trims to nothing does
parse to the empty command.  (The converse fails: see
`empty_quotes_command_cex` — inputs made only of quote characters also
parse to the empty command.) -/
theorem tokenizer_no_empty_tokens :
    parseCommand "cmd \"\" x" = ("cmd", ["x"]) ∧
    (∀ (input : String), ∀ a ∈ (parseCommand input).2, a ≠ "") ∧
    (∀ (input : String), jsTrim input = "" → (parseCommand input).1 = "") := by
  refine ⟨by decide, ?_, ?_⟩
  · intro input a ha
    have hmem : a ∈ parseLoop (jsTrim input).data [] "" false none :=
      List.mem_of_mem_tail ha
    exact parseLoop_mem_ne_empty _ [] "" false none (by intro p hp; cases hp) a hmem
  · intro input h
    simp only [parseCommand, h]
    rfl

/-- C10 witness: the all-whitespace input parses to the empty command. -/
theorem tokenizer_no_empty_tokens_witness :
    (parseCommand "   ").1 = "" :=
  tokenizer_no_empty_tokens.2.2 "   " (by decide)

/-- C1 (as amended): on input that is empty after trimming, neither
dispatcher invokes any handler and both return `success:false`; the
`CommandHandler` service returns kind `info` with its prompt message, but
the `CommandExecutor` — the dispatcher the terminal context actually
constructs — returns kind `error` with `No command entered.`. -/
theorem empty_input_dispatch_results (est : ExecutorState) (hst : HandlerState)
    (input : String) (h : jsTrim input = "") :
    executeCommand est input =
      ({ success := false, output := "No command entered.",
         type := TerminalEntryType.error }, est, []) ∧
    handlerExecuteCommand hst input =
      ({ success := false,
         output := "Please enter a command. Type \"help\" for available commands.",
         type := TerminalEntryType.info }, hst) := by
  constructor
  · simp only [executeCommand, parseCommand, h]
    rfl
  · simp only [handlerExecuteCommand, handlerParseCommand, h]
    rfl

/-- C1 witness: the concrete single-space input, against the sample
states. -/
theorem empty_input_dispatch_results_witness :
    executeCommand emptyExec " " =
      ({ success := false, output := "No command entered.",
         type := TerminalEntryType.error }, emptyExec, []) ∧
    handlerExecuteCommand sampleHandler " " =
      ({ success := false,
         output := "Please enter a command. Type \"help\" for available commands.",
         type := TerminalEntryType.info }, sampleHandler) :=
  empty_input_dispatch_results emptyExec sampleHandler " " (by decide)

/-- C1 counterexample: the wired dispatcher (`CommandExecutor`) answers the
empty input with kind `error`, not kind `info`. -/
theorem empty_input_executor_kind_cex :
    (executeCommand emptyExec "").1.type = TerminalEntryType.error ∧
    TerminalEntryType.error ≠ TerminalEntryType.info := by
  decide

/-- C2 counterexample: after registering `goto` with alias `nav` in the
`CommandExecutor`, resolving the mixed-case `NAV` finds nothing (the maps
are consulted case-sensitively), while the exact `nav` resolves. -/
theorem mixed_case_executor_lookup_cex :
    (executorGetCommand gotoExec "NAV").isNone = true ∧
    (executorGetCommand gotoExec "nav").isSome = true := by
  decide

/-- C2 (as amended): the `CommandHandler` service resolves case-insensitively
— lookups depend only on the lowercased string, and `NAV` reaches the `goto`
descriptor — but the `CommandExecutor` (the instance the terminal context
constructs) resolves case-sensitively: `NAV` resolves to nothing there. -/
theorem case_insensitive_handler_resolution :
    (∀ (st : HandlerState) (s t : String), jsToLower s = jsToLower t →
      handlerGetCommand st s = handlerGetCommand st t) ∧
    handlerGetCommand (initializeCommands [gotoCmd]) "NAV" = some gotoCmd ∧
    executorGetCommand gotoExec "NAV" = none := by
  refine ⟨?_, rfl, rfl⟩
  intro st s t h
  simp only [handlerGetCommand, resolveCommandName, h]

/-- C2 witness: `NaV` and `nav` lower to the same string, so the handler
resolves them identically. -/
theorem case_insensitive_handler_resolution_witness :
    handlerGetCommand (initializeCommands [gotoCmd]) "NaV" =
      handlerGetCommand (initializeCommands [gotoCmd]) "nav" :=
  case_insensitive_handler_resolution.1 (initializeCommands [gotoCmd]) "NaV" "nav" (by decide)

/-- C3 (as amended): `CommandExecutor.executeCommand` leaves the executor
state — the context and its command history included — entirely unchanged,
for every input; `CommandHandler.executeCommand` appends exactly the raw
input line after every successful handler run, and leaves its state (the
history included) unchanged on each of the other paths: empty command,
unresolved command, failed validation, and handler fault. -/
theorem dispatch_history_effects :
    (∀ (st : ExecutorState) (input : String), (executeCommand st input).2.1 = st) ∧
    (∀ (st : HandlerState) (input name : String) (args : List String) (cmd : Command)
        (r : CommandResult),
      handlerParseCommand input = (name, args) → name ≠ "" →
      handlerGetCommand st name = some cmd →
      validateFails cmd args = false →
      cmd.execute args { commandHistory := st.history } = Except.ok r →
      handlerExecuteCommand st input = (r, { st with history := st.history ++ [input] })) ∧
    (∀ (st : HandlerState) (input : String),
      (handlerParseCommand input).1 = "" →
      (handlerExecuteCommand st input).2 = st) ∧
    (∀ (st : HandlerState) (input : String),
      (handlerParseCommand input).1 ≠ "" →
      handlerGetCommand st (handlerParseCommand input).1 = none →
      (handlerExecuteCommand st input).2 = st) ∧
    (∀ (st : HandlerState) (input : String) (cmd : Command),
      (handlerParseCommand input).1 ≠ "" →
      handlerGetCommand st (handlerParseCommand input).1 = some cmd →
      validateFails cmd (handlerParseCommand input).2 = true →
      (handlerExecuteCommand st input).2 = st) ∧
    (∀ (st : HandlerState) (input : String) (cmd : Command) (e : String),
      (handlerParseCommand input).1 ≠ "" →
      handlerGetCommand st (handlerParseCommand input).1 = some cmd →
      validateFails cmd (handlerParseCommand input).2 = false →
      cmd.execute (handlerParseCommand input).2 { commandHistory := st.history } =
        Except.error e →
      (handlerExecuteCommand st input).2 = st) := by
  refine ⟨?_, ?_, ?_, ?_, ?_, ?_⟩
  · intro st input
    simp only [executeCommand]
    split
    · rfl
    · split
      · rfl
      · split
        · rfl
        · split <;> rfl
  · intro st input name args cmd r hparse hname hget hval hok
    simp only [handlerExecuteCommand, hparse]
    rw [if_neg hname, hget]
    simp only [hval]
    rw [hok]
    rfl
  · intro st input h
    simp only [handlerExecuteCommand]
    rw [if_pos h]
  · intro st input hname hget
    simp only [handlerExecuteCommand]
    rw [if_neg hname, hget]
  · intro st input cmd hname hget hval
    simp only [handlerExecuteCommand]
    rw [if_neg hname, hget]
    simp only [hval]
    rfl
  · intro st input cmd e hname hget hval hfault
    simp only [handlerExecuteCommand]
    rw [if_neg hname, hget]
    simp only [hval]
    rw [hfault]
    rfl

/-- C3 witness: a successful `ping` dispatch through the handler service
appends exactly the raw input. -/
theorem dispatch_history_effects_witness :
    handlerExecuteCommand pingHandler "ping" =
      ({ success := true, output := "pong", type := TerminalEntryType.success },
       { pingHandler with history := ["ping"] }) :=
  dispatch_history_effects.2.1 pingHandler "ping" "ping" [] pingCmd
    { success := true, output := "pong", type := TerminalEntryType.success }
    (by decide) (by decide) rfl rfl rfl

/-- C3 counterexample: a successful dispatch through the `CommandHandler`
service appends the raw input to the shared command history — the history
is not left unchanged. -/
theorem handler_history_append_cex :
    (handlerExecuteCommand pingHandler "ping").2.history = ["ping"] ∧
    pingHandler.history = [] := by
  decide

/-- `slice(-C)` for a positive cap is dropping all but the last `C`. -/
theorem jsSliceLast_of_pos {α : Type} (l : List α) (C : Nat) (h : 1 ≤ C) :
    jsSliceLast l C = l.drop (l.length - C) := by
  have hC : C ≠ 0 := by omega
  simp [jsSliceLast, hC]

/-- One step of the capped append keeps the "last `C` of everything
submitted" invariant. -/
theorem appendCommand_step (s : List String) (c : String) (C : Nat) (h : 1 ≤ C) :
    appendCommand (s.drop (s.length - C)) c C =
      (s ++ [c]).drop ((s ++ [c]).length - C) := by
  simp only [appendCommand, List.length_append, List.length_singleton]
  rcases Nat.lt_or_ge s.length C with hlen | hlen
  · have h0 : s.length - C = 0 := by omega
    have h1 : s.length + 1 - C = 0 := by omega
    rw [h0, List.drop_zero, h1, List.drop_zero]
    rw [if_neg (by simp; omega)]
  · have hdroplen : (s.drop (s.length - C)).length = C := by
      rw [List.length_drop]; omega
    rw [if_pos (by simp [hdroplen])]
    rw [jsSliceLast_of_pos _ _ h]
    simp only [List.length_append, List.length_singleton, hdroplen]
    have h2 : C + 1 - C = 1 := by omega
    rw [h2, List.drop_append_of_le_length (by omega),
      List.drop_append_of_le_length (by omega), List.drop_drop]
    have h3 : s.length - C + 1 = s.length + 1 - C := by omega
    rw [h3]

/-- Folding the capped append over a submission sequence, starting from the
last `C` of a previous sequence, yields the last `C` of the whole. -/
theorem foldl_appendCommand (C : Nat) (h : 1 ≤ C) :
    ∀ (entries s : List String),
      List.foldl (fun acc cmd => appendCommand acc cmd C)
        (s.drop (s.length - C)) entries =
      (s ++ entries).drop ((s ++ entries).length - C) := by
  intro entries
  induction entries with
  | nil => intro s; simp
  | cons c cs ih =>
    intro s
    simp only [List.foldl_cons]
    rw [appendCommand_step s c C h]
    have := ih (s ++ [c])
    rw [show (s ++ [c]) ++ cs = s ++ c :: cs by simp] at this
    exact this

/-- C6 (as amended, for caps `C ≥ 1`): loading right after saving returns
exactly the last `min (|s|, C)` commands, in order (as their stored string
values); and submitting any sequence of commands through the terminal
context's capped append leaves exactly the last `C` of them — FIFO
eviction of the oldest. -/
theorem history_roundtrip_cap (s entries : List String) (C : Nat) (h : 1 ≤ C) :
    loadCommandHistory C (some (saveCommandHistory s C)) =
      (s.drop (s.length - C)).map JVal.str ∧
    List.foldl (fun acc cmd => appendCommand acc cmd C) [] entries =
      entries.drop (entries.length - C) := by
  constructor
  · simp only [loadCommandHistory, saveCommandHistory]
    rw [jsSliceLast_of_pos _ _ h, jsSliceLast_of_pos _ _ h]
    have hlen : ((s.drop (s.length - C)).map JVal.str).length ≤ C := by
      rw [List.length_map, List.length_drop]; omega
    rw [Nat.sub_eq_zero_of_le hlen, List.drop_zero]
  · have := foldl_appendCommand C h entries []
    simpa using this

/-- C6 witness: cap 2, three saved commands, three submitted commands. -/
theorem history_roundtrip_cap_witness :
    loadCommandHistory 2 (some (saveCommandHistory ["a", "b", "c"] 2)) =
      ((["a", "b", "c"].drop (["a", "b", "c"].length - 2)).map JVal.str) ∧
    List.foldl (fun acc cmd => appendCommand acc cmd 2) [] ["x", "y", "z"] =
      ["x", "y", "z"].drop (["x", "y", "z"].length - 2) :=
  history_roundtrip_cap ["a", "b", "c"] ["x", "y", "z"] 2 (by decide)

/-- C6 counterexample: at cap `C = 0`, `slice(-0)` is `slice(0)`, so the
round trip returns the whole sequence instead of the last `min (|s|, 0) = 0`
elements. -/
theorem history_roundtrip_zero_cap_cex :
    loadCommandHistory 0 (some (saveCommandHistory ["a"] 0)) = [JVal.str "a"] ∧
    (loadCommandHistory 0 (some (saveCommandHistory ["a"] 0))).length ≠ 0 := by
  exact ⟨rfl, by decide⟩

/-- C7 (as amended): the terminal history persistence writes bare serialized
arrays with no schema/version marker, and its load performs no version check
(any stored array is accepted as-is, capped); the version marker and the
discard-on-mismatch load exist only in the guide persistence, which also
round-trips its own writes. -/
theorem persistence_version_markers :
    (∀ (cmds : List String) (maxSize : Nat),
      hasVersionField (saveCommandHistory cmds maxSize) = false) ∧
    (∀ (entries : List TerminalEntry) (maxSize : Nat),
      hasVersionField (saveTerminalHistory entries maxSize) = false) ∧
    (∀ (elems : List JVal) (maxSize : Nat),
      loadCommandHistory maxSize (some (JVal.arr elems)) = jsSliceLast elems maxSize) ∧
    (∀ (d : Bool) (ts : String), hasVersionField (saveGuideDismissed d ts) = true) ∧
    (∀ (d : Bool) (ts v : String), v ≠ guideVersion →
      loadGuideDismissed (some (JVal.obj
        [("dismissed", JVal.jbool d), ("dismissedAt", JVal.str ts),
         ("version", JVal.str v)])) = false) ∧
    (∀ (d : Bool) (ts : String), loadGuideDismissed (some (saveGuideDismissed d ts)) = d) := by
  refine ⟨fun _ _ => rfl, fun _ _ => rfl, fun _ _ => rfl, fun _ _ => rfl, ?_, ?_⟩
  · intro d ts v hv
    simp [loadGuideDismissed, mapGet, hv]
  · intro d ts
    simp [loadGuideDismissed, saveGuideDismissed, mapGet, guideVersion]

/-- C7 counterexample: the value written for the command history is a bare
array — no version marker — while the guide persistence does tag its value. -/
theorem command_history_no_version_cex :
    hasVersionField (saveCommandHistory ["help"] 50) = false ∧
    hasVersionField (saveGuideDismissed true "2025-01-01T00:00:00.000Z") = true := by
  decide

/-- C7 witness: a stored guide state with the stale version `0.9.0` is
discarded on load. -/
theorem persistence_version_markers_witness :
    loadGuideDismissed (some (JVal.obj
      [("dismissed", JVal.jbool true), ("dismissedAt", JVal.str "t"),
       ("version", JVal.str "0.9.0")])) = false :=
  persistence_version_markers.2.2.2.2.1 true "t" "0.9.0" (by decide)

/-- C8: in both dispatcher implementations, when the resolved handler's
promise rejects with message `e`, the dispatch catches it and returns
`success:false`, kind `error`, with the wrapped message carrying `e` — the
`CommandExecutor` having invoked the handler exactly once, the
`CommandHandler` leaving its state (history included) untouched.  (Each
dispatch is a total function of its inputs: both source bodies sit entirely
inside `try/catch`, so no fault escapes to the caller.) -/
theorem executor_catches_handler_fault :
    (∀ (st : ExecutorState) (input name e : String) (args : List String) (cmd : Command),
      parseCommand input = (name, args) → name ≠ "" →
      executorGetCommand st name = some cmd →
      validateCommand cmd args = true →
      cmd.execute args st.context = Except.error e →
      executeCommand st input =
        ({ success := false,
           output := "An error occurred while executing the command: " ++ e,
           type := TerminalEntryType.error }, st, [cmd.name])) ∧
    (∀ (st : HandlerState) (input name e : String) (args : List String) (cmd : Command),
      handlerParseCommand input = (name, args) → name ≠ "" →
      handlerGetCommand st name = some cmd →
      validateFails cmd args = false →
      cmd.execute args { commandHistory := st.history } = Except.error e →
      handlerExecuteCommand st input =
        ({ success := false,
           output := "An error occurred while executing the command.\n\nError: " ++ e,
           type := TerminalEntryType.error }, st)) := by
  constructor
  · intro st input name e args cmd hparse hname hget hval hfault
    simp only [executeCommand, hparse]
    rw [if_neg hname]
    rw [hget]
    simp only [hval]
    rw [hfault]
    rfl
  · intro st input name e args cmd hparse hname hget hval hfault
    simp only [handlerExecuteCommand, hparse]
    rw [if_neg hname, hget]
    simp only [hval]
    rw [hfault]
    rfl

instance : IsTotal (Nat × Nat × String) suggestionLE :=
  ⟨by intro a b; unfold suggestionLE; omega⟩

instance : IsTrans (Nat × Nat × String) suggestionLE :=
  ⟨by intro a b c; unfold suggestionLE; omega⟩

/-- The stable-sort comparator respects distance. -/
theorem suggestionLE_dist_le {x y : Nat × Nat × String} (h : suggestionLE x y) :
    x.1 ≤ y.1 := by
  unfold suggestionLE at h; omega

/-- Two comparator-equivalent entries agree in distance and position. -/
theorem suggestionLE_antisymm_key {x y : Nat × Nat × String}
    (h1 : suggestionLE x y) (h2 : suggestionLE y x) : x.1 = y.1 ∧ x.2.1 = y.2.1 := by
  unfold suggestionLE at h1 h2; omega

/-- Every scored entry's distance is the suggestion distance of its name,
and its position indexes that name in the candidate list. -/
theorem scoredNames_mem {st : ExecutorState} {input : String} {x : Nat × Nat × String}
    (hx : x ∈ scoredNames st input) :
    x.1 = suggestionDistance input x.2.2 ∧ (allCommandNames st)[x.2.1]? = some x.2.2 := by
  simp only [scoredNames, List.mem_map] at hx
  obtain ⟨p, hp, rfl⟩ := hx
  exact ⟨rfl, List.mem_enum_iff_getElem?.1 hp⟩

/-- Scored entries name registered candidates. -/
theorem scoredNames_name_mem {st : ExecutorState} {input : String} {x : Nat × Nat × String}
    (hx : x ∈ scoredNames st input) : x.2.2 ∈ allCommandNames st := by
  obtain ⟨-, hget⟩ := scoredNames_mem hx
  obtain ⟨h, heq⟩ := List.getElem?_eq_some.1 hget
  exact heq ▸ List.getElem_mem h

/-- Within one scored candidate list, the position determines the whole
entry. -/
theorem scoredNames_inj {st : ExecutorState} {input : String}
    {x y : Nat × Nat × String} (hx : x ∈ scoredNames st input)
    (hy : y ∈ scoredNames st input) (hidx : x.2.1 = y.2.1) : x = y := by
  obtain ⟨hdx, hgx⟩ := scoredNames_mem hx
  obtain ⟨hdy, hgy⟩ := scoredNames_mem hy
  rw [hidx] at hgx
  have hname : x.2.2 = y.2.2 := Option.some.inj (hgx.symm.trans hgy)
  have hd : x.1 = y.1 := by rw [hdx, hdy, hname]
  obtain ⟨x1, x2, x3⟩ := x
  obtain ⟨y1, y2, y3⟩ := y
  simp_all

/-- Prepending an element equal to everything in `u` commutes with `u`. -/
theorem cons_append_eq_of_forall_eq {α : Type} (a : α) :
    ∀ (u v : List α), (∀ x ∈ u, x = a) → a :: (u ++ v) = u ++ a :: v := by
  intro u
  induction u with
  | nil => intro v _; rfl
  | cons b u ih =>
    intro v hall
    have hb : b = a := hall b (List.mem_cons_self b u)
    subst hb
    simp only [List.cons_append]
    rw [ih v (fun x hx => hall x (List.mem_cons_of_mem _ hx))]

/-- Two sorted lists that are permutations of one another are equal, given
antisymmetry of the order on the members involved (the relation need not be
globally antisymmetric). -/
theorem sorted_perm_eq_of_antisymm_mem {α : Type} {r : α → α → Prop}
    (l₁ : List α) :
    ∀ (l₂ : List α),
      (∀ a ∈ l₁, ∀ b ∈ l₁, r a b → r b a → a = b) →
      l₁.Perm l₂ → l₁.Sorted r → l₂.Sorted r → l₁ = l₂ := by
  induction l₁ with
  | nil =>
    intro l₂ _ hp _ _
    exact hp.nil_eq
  | cons a l₁ ih =>
    intro l₂ hanti hp hs₁ hs₂
    have haMem : a ∈ l₂ := hp.subset (List.mem_cons_self a l₁)
    obtain ⟨u, v, rfl⟩ := List.append_of_mem haMem
    have hp' : l₁.Perm (u ++ v) := (List.perm_cons a).1 (hp.trans List.perm_middle)
    have hall : ∀ x ∈ u, x = a := by
      intro x hx
      have hxl2 : x ∈ u ++ a :: v := List.mem_append_left _ hx
      have hxl1 : x ∈ a :: l₁ := hp.symm.subset hxl2
      have hra : r x a := (List.pairwise_append.1 hs₂).2.2 x hx a (List.mem_cons_self a v)
      have hax : r a x := by
        rcases List.mem_cons.1 hxl1 with heq | hmem
        · subst heq; exact hra
        · exact List.rel_of_sorted_cons hs₁ x hmem
      exact hanti x hxl1 a (List.mem_cons_self a l₁) hra hax
    have huv : l₁ = u ++ v :=
      ih (u ++ v)
        (fun a' h1 b h2 => hanti a' (List.mem_cons_of_mem _ h1) b (List.mem_cons_of_mem _ h2))
        hp' ((List.pairwise_cons.1 hs₁).2)
        (List.Pairwise.sublist ((List.sublist_cons_self a v).append_left u) hs₂)
    rw [huv]
    exact cons_append_eq_of_forall_eq a u v hall

/-- On a list sorted by a relation under which a predicate is downward
closed, filtering and taking-while coincide. -/
theorem filter_eq_takeWhile_of_sorted {α : Type} (p : α → Bool) (le : α → α → Prop)
    (hdc : ∀ x y, le x y → p y = true → p x = true) :
    ∀ (l : List α), l.Pairwise le → l.filter p = l.takeWhile p := by
  intro l
  induction l with
  | nil => intro _; rfl
  | cons a l ih =>
    intro hpw
    obtain ⟨hhead, htail⟩ := List.pairwise_cons.1 hpw
    by_cases hpa : p a = true
    · simp [List.filter_cons, List.takeWhile_cons, hpa, ih htail]
    · have hfilter : l.filter p = [] :=
        List.filter_eq_nil_iff.2 (fun x hx hpx => hpa (hdc a x (hhead x hx) hpx))
      simp [List.filter_cons, List.takeWhile_cons, hpa, hfilter]

/-- The suggestion pipeline, named: candidates within the threshold, stably
sorted by distance (`findSimilarCommands` is definitionally the first 3
names of this). -/
def suggestionSorted (st : ExecutorState) (input : String) (threshold : Nat) :
    List (Nat × Nat × String) :=
  List.insertionSort suggestionLE ((scoredNames st input).filter (fun x => x.1 ≤ threshold))

/-- `findSimilarCommands`, unfolded to the named pipeline. -/
theorem findSimilarCommands_eq (st : ExecutorState) (input : String) (t : Nat) :
    findSimilarCommands st input t =
      ((suggestionSorted st input t).map (fun x => x.2.2)).take 3 := rfl

/-- Everything the stable sort emits was scored and passed the threshold. -/
theorem suggestionSorted_mem {st : ExecutorState} {input : String} {t : Nat}
    {x : Nat × Nat × String} (hx : x ∈ suggestionSorted st input t) :
    x ∈ scoredNames st input ∧ x.1 ≤ t := by
  have hkept := (List.perm_insertionSort suggestionLE _).subset hx
  have h2 := List.mem_filter.1 hkept
  exact ⟨h2.1, by simpa using h2.2⟩

/-- C5: the suggestion engine returns only registered names and aliases
whose distance (edit distance of the lowercased strings) is within the
threshold, in ascending-distance order, at most 3 of them; and every
within-threshold candidate appears unless the 3-result cap is already
full. -/
theorem suggestion_engine_spec (st : ExecutorState) (input : String) (t : Nat) :
    (∀ s ∈ findSimilarCommands st input t,
      s ∈ allCommandNames st ∧ suggestionDistance input s ≤ t) ∧
    List.Pairwise (fun a b => suggestionDistance input a ≤ suggestionDistance input b)
      (findSimilarCommands st input t) ∧
    (findSimilarCommands st input t).length ≤ 3 ∧
    (∀ s ∈ allCommandNames st, suggestionDistance input s ≤ t →
      s ∈ findSimilarCommands st input t ∨ (findSimilarCommands st input t).length = 3) := by
  refine ⟨?_, ?_, ?_, ?_⟩
  · intro s hs
    rw [findSimilarCommands_eq] at hs
    have hs' := (List.take_sublist _ _).subset hs
    obtain ⟨x, hxsorted, rfl⟩ := List.mem_map.1 hs'
    obtain ⟨hxscored, hxle⟩ := suggestionSorted_mem hxsorted
    obtain ⟨hdist, -⟩ := scoredNames_mem hxscored
    exact ⟨scoredNames_name_mem hxscored, hdist ▸ hxle⟩
  · rw [findSimilarCommands_eq, ← List.map_take]
    refine List.pairwise_map.2 ?_
    have hsorted : List.Pairwise suggestionLE (suggestionSorted st input t) :=
      List.sorted_insertionSort _ _
    have hdistpw : List.Pairwise (fun a b : Nat × Nat × String => a.1 ≤ b.1)
        (suggestionSorted st input t) :=
      List.Pairwise.imp (fun h => suggestionLE_dist_le h) hsorted
    have htake := List.Pairwise.sublist (List.take_sublist 3 _) hdistpw
    refine List.Pairwise.imp_of_mem ?_ htake
    intro a b ha hb hle
    have hda := (scoredNames_mem (suggestionSorted_mem ((List.take_sublist _ _).subset ha)).1).1
    have hdb := (scoredNames_mem (suggestionSorted_mem ((List.take_sublist _ _).subset hb)).1).1
    rw [← hda, ← hdb]
    exact hle
  · rw [findSimilarCommands_eq]
    exact List.length_take_le _ _
  · intro s hsmem hsdist
    obtain ⟨i, hi, hgi⟩ := List.mem_iff_getElem.1 hsmem
    have henum : (i, s) ∈ (allCommandNames st).enum :=
      List.mem_enum_iff_getElem?.2 (List.getElem?_eq_some.2 ⟨hi, hgi⟩)
    have hxscored : (suggestionDistance input s, i, s) ∈ scoredNames st input := by
      simp only [scoredNames, List.mem_map]
      exact ⟨(i, s), henum, rfl⟩
    have hxkept : (suggestionDistance input s, i, s) ∈
        (scoredNames st input).filter (fun x => x.1 ≤ t) :=
      List.mem_filter.2 ⟨hxscored, by simpa using hsdist⟩
    have hxsorted : (suggestionDistance input s, i, s) ∈ suggestionSorted st input t :=
      (List.perm_insertionSort suggestionLE _).symm.subset hxkept
    by_cases hlen : (suggestionSorted st input t).length ≤ 3
    · left
      rw [findSimilarCommands_eq]
      have hmaplen : ((suggestionSorted st input t).map (fun x => x.2.2)).length ≤ 3 := by
        rw [List.length_map]; exact hlen
      rw [List.take_of_length_le hmaplen]
      exact List.mem_map.2 ⟨_, hxsorted, rfl⟩
    · right
      rw [findSimilarCommands_eq, List.length_take, List.length_map]
      omega

/-- C5 witness: against the `goto`/`nav` registry with input `gto`, the
within-threshold candidate `goto` appears or the cap is full. -/
theorem suggestion_engine_spec_witness :
    "goto" ∈ findSimilarCommands gotoExec "gto" 2 ∨
      (findSimilarCommands gotoExec "gto" 2).length = 3 :=
  (suggestion_engine_spec gotoExec "gto" 2).2.2.2 "goto" (by decide) (by decide)

/-- C9: raising the suggestion threshold never removes a returned name.
Entries admitted only by the larger threshold have strictly larger
distances, so the stable sort places them after every entry the smaller
threshold admits; the smaller run's sorted list is literally a prefix of
the larger run's, and taking 3 preserves prefix membership. -/
theorem suggestion_threshold_monotone (st : ExecutorState) (input : String)
    (t1 t2 : Nat) (h12 : t1 ≤ t2) :
    ∀ s ∈ findSimilarCommands st input t1, s ∈ findSimilarCommands st input t2 := by
  intro s hs
  have hQfilter : ((scoredNames st input).filter (fun x => x.1 ≤ t2)).filter
      (fun x => x.1 ≤ t1) = (scoredNames st input).filter (fun x => x.1 ≤ t1) := by
    rw [List.filter_filter]
    refine List.filter_congr ?_
    intro x _
    by_cases hx : x.1 ≤ t1
    · have hx2 : x.1 ≤ t2 := by omega
      simp [hx, hx2]
    · simp [hx]
  have hpermBf : ((suggestionSorted st input t2).filter (fun x => x.1 ≤ t1)).Perm
      (suggestionSorted st input t1) := by
    have h1 := (List.perm_insertionSort suggestionLE
      ((scoredNames st input).filter (fun x => x.1 ≤ t2))).filter (fun x => x.1 ≤ t1)
    rw [hQfilter] at h1
    exact h1.trans (List.perm_insertionSort suggestionLE _).symm
  have hsortB : List.Sorted suggestionLE (suggestionSorted st input t2) :=
    List.sorted_insertionSort _ _
  have hsortA : List.Sorted suggestionLE (suggestionSorted st input t1) :=
    List.sorted_insertionSort _ _
  have hBfSorted : List.Sorted suggestionLE
      ((suggestionSorted st input t2).filter (fun x => x.1 ≤ t1)) :=
    hsortB.filter _
  have hanti : ∀ a ∈ (suggestionSorted st input t2).filter (fun x => x.1 ≤ t1),
      ∀ b ∈ (suggestionSorted st input t2).filter (fun x => x.1 ≤ t1),
      suggestionLE a b → suggestionLE b a → a = b := by
    intro a ha b hb h1 h2
    have hamem := (suggestionSorted_mem ((List.filter_sublist _).subset ha)).1
    have hbmem := (suggestionSorted_mem ((List.filter_sublist _).subset hb)).1
    exact scoredNames_inj hamem hbmem (suggestionLE_antisymm_key h1 h2).2
  have hAeq : (suggestionSorted st input t2).filter (fun x => x.1 ≤ t1) =
      suggestionSorted st input t1 :=
    sorted_perm_eq_of_antisymm_mem _ _ hanti hpermBf hBfSorted hsortA
  have hBpw : List.Pairwise (fun a b : Nat × Nat × String => a.1 ≤ b.1)
      (suggestionSorted st input t2) :=
    List.Pairwise.imp (fun h => suggestionLE_dist_le h) hsortB
  have htw : (suggestionSorted st input t2).filter (fun x => x.1 ≤ t1) =
      (suggestionSorted st input t2).takeWhile (fun x => x.1 ≤ t1) :=
    filter_eq_takeWhile_of_sorted _ (fun a b : Nat × Nat × String => a.1 ≤ b.1)
      (by intro x y hxy hy; simp only [decide_eq_true_eq] at hy ⊢; omega)
      _ hBpw
  have hsplit : suggestionSorted st input t2 =
      suggestionSorted st input t1 ++
        (suggestionSorted st input t2).dropWhile (fun x => x.1 ≤ t1) := by
    rw [← hAeq, htw]
    exact (List.takeWhile_append_dropWhile _ _).symm
  rw [findSimilarCommands_eq, hsplit, List.map_append, List.take_append_eq_append_take]
  rw [findSimilarCommands_eq] at hs
  exact List.mem_append_left _ hs

/-- C9 witness: `goto` is suggested for `gto` at threshold 1 and remains
suggested at threshold 2. -/
theorem suggestion_threshold_monotone_witness :
    "goto" ∈ findSimilarCommands gotoExec "gto" 2 :=
  suggestion_threshold_monotone gotoExec "gto" 1 2 (by decide) "goto" (by decide)

/-- C8 witness: the throwing fixture, dispatched end to end through both
implementations. -/
theorem executor_catches_handler_fault_witness :
    executeCommand boomExec "boom" =
      ({ success := false,
         output := "An error occurred while executing the command: Something went wrong",
         type := TerminalEntryType.error }, boomExec, ["boom"]) ∧
    handlerExecuteCommand boomHandler "boom" =
      ({ success := false,
         output := "An error occurred while executing the command.\n\nError: Something went wrong",
         type := TerminalEntryType.error }, boomHandler) :=
  ⟨executor_catches_handler_fault.1 boomExec "boom" "boom" "Something went wrong" [] boomCmd
    (by decide) (by decide) rfl rfl rfl,
   executor_catches_handler_fault.2 boomHandler "boom" "boom" "Something went wrong" [] boomCmd
    (by decide) (by decide) rfl rfl rfl⟩
